import Mathlib

/-!
# Verification of the objkt-swap v3 marketplace contract

A shallow embedding of `src/smart-py/objkt_swap_v3.py` (the `Marketplace`
SmartPy contract) and proofs of the specification's claims about it.

Modelling conventions:
- Tezos addresses are `Nat` (`Addr`); mutez amounts are `Nat` (`Mutez`).
- SmartPy big maps are association lists with get/set/delete helpers.
- Each entry point is a function `Ctx → Storage → params →
  Except String (Storage × List Operation)`: `.error msg` models a failed
  `sp.verify` (the whole call aborts with the given message, no state
  change), `.ok (s, ops)` models success with the new storage and the
  list of emitted internal operations (`sp.send` / FA2 `sp.transfer`).
- `sp.split_tokens(amount, q, total)` is `amount * q / total` (floor).
- Michelson mutez subtraction (`sp.amount - royalties - fee` in `collect`,
  line 178 of the source) aborts at runtime when the result would be
  negative; the embedding has an explicit error branch for that case.
- `sp.as_nat(x - 1)` under the guard `x > 0` is plain `Nat` subtraction.
-/

abbrev Addr := Nat
abbrev Mutez := Nat

/-! ## Big maps as association lists -/

def bigMapGet {κ α : Type} [DecidableEq κ] (m : List (κ × α)) (k : κ) : Option α :=
  match m with
  | [] => none
  | (k', v) :: rest => if k = k' then some v else bigMapGet rest k

def bigMapSet {κ α : Type} [DecidableEq κ] (m : List (κ × α)) (k : κ) (v : α) :
    List (κ × α) :=
  match m with
  | [] => [(k, v)]
  | (k', v') :: rest => if k = k' then (k, v) :: rest else (k', v') :: bigMapSet rest k v

def bigMapDel {κ α : Type} [DecidableEq κ] (m : List (κ × α)) (k : κ) : List (κ × α) :=
  match m with
  | [] => []
  | (k', v') :: rest => if k = k' then bigMapDel rest k else (k', v') :: bigMapDel rest k

def bigMapContains {κ α : Type} [DecidableEq κ] (m : List (κ × α)) (k : κ) : Bool :=
  (bigMapGet m k).isSome

theorem bigMapGet_set_self {κ α : Type} [DecidableEq κ] (m : List (κ × α)) (k : κ) (v : α) :
    bigMapGet (bigMapSet m k v) k = some v := by
  induction m with
  | nil => simp [bigMapGet, bigMapSet]
  | cons p rest ih =>
    obtain ⟨k', v'⟩ := p
    by_cases h : k = k' <;> simp [bigMapGet, bigMapSet, h, ih]

theorem bigMapGet_set_ne {κ α : Type} [DecidableEq κ] (m : List (κ × α)) (k k' : κ) (v : α)
    (h : k ≠ k') : bigMapGet (bigMapSet m k' v) k = bigMapGet m k := by
  induction m with
  | nil => simp [bigMapGet, bigMapSet, h]
  | cons p rest ih =>
    obtain ⟨k'', v''⟩ := p
    by_cases h1 : k' = k''
    · subst h1
      simp [bigMapGet, bigMapSet, h]
    · by_cases h2 : k = k'' <;> simp [bigMapGet, bigMapSet, h1, h2, ih]

theorem bigMapGet_del_self {κ α : Type} [DecidableEq κ] (m : List (κ × α)) (k : κ) :
    bigMapGet (bigMapDel m k) k = none := by
  induction m with
  | nil => simp [bigMapGet, bigMapDel]
  | cons p rest ih =>
    obtain ⟨k', v'⟩ := p
    by_cases h : k = k'
    · subst h
      simp [bigMapDel, ih]
    · simp [bigMapDel, h, bigMapGet, ih]

theorem bigMapGet_del_ne {κ α : Type} [DecidableEq κ] (m : List (κ × α)) (k k' : κ)
    (h : k ≠ k') : bigMapGet (bigMapDel m k') k = bigMapGet m k := by
  induction m with
  | nil => simp [bigMapGet, bigMapDel]
  | cons p rest ih =>
    obtain ⟨k'', v''⟩ := p
    by_cases h1 : k' = k''
    · subst h1
      simp [bigMapGet, bigMapDel, h, ih]
    · by_cases h2 : k = k'' <;> simp [bigMapGet, bigMapDel, h1, h2, ih]

theorem mem_bigMapSet {κ α : Type} [DecidableEq κ] (m : List (κ × α)) (k : κ) (v : α)
    (p : κ × α) (h : p ∈ bigMapSet m k v) : p ∈ m ∨ p = (k, v) := by
  induction m with
  | nil => simp [bigMapSet] at h; simp [h]
  | cons q rest ih =>
    obtain ⟨k', v'⟩ := q
    by_cases h1 : k = k'
    · simp [bigMapSet, h1] at h
      rcases h with h | h
      · right; simp [h, h1]
      · left; simp [h]
    · simp [bigMapSet, h1] at h
      rcases h with h | h
      · left; simp [h]
      · rcases ih h with h2 | h2
        · left; simp [h2]
        · right; exact h2

theorem mem_bigMapDel {κ α : Type} [DecidableEq κ] (m : List (κ × α)) (k : κ)
    (p : κ × α) (h : p ∈ bigMapDel m k) : p ∈ m := by
  induction m with
  | nil => simp [bigMapDel] at h
  | cons q rest ih =>
    obtain ⟨k', v'⟩ := q
    by_cases h1 : k = k'
    · subst h1
      simp [bigMapDel] at h
      simp [ih h]
    · simp [bigMapDel, h1] at h
      rcases h with h | h
      · simp [h]
      · simp [ih h]

theorem bigMapGet_mem {κ α : Type} [DecidableEq κ] (m : List (κ × α)) (k : κ) (v : α)
    (h : bigMapGet m k = some v) : (k, v) ∈ m := by
  induction m with
  | nil => simp [bigMapGet] at h
  | cons q rest ih =>
    obtain ⟨k', v'⟩ := q
    by_cases h1 : k = k'
    · simp [bigMapGet, h1] at h
      simp [h1, h]
    · simp [bigMapGet, h1] at h
      simp [ih h]

/-! ## Data model (`Marketplace.SWAP_TYPE` and the contract storage) -/

/-- One swap record, `Marketplace.SWAP_TYPE` from the source. -/
structure SwapRecord where
  issuer : Addr
  fa2 : Addr
  objkt_id : Nat
  objkt_amount : Nat
  xtz_per_objkt : Mutez
  royalties : Nat
  creator : Addr
deriving DecidableEq

/-- The parameter record of the `swap` entry point. -/
structure SwapParams where
  fa2 : Addr
  objkt_id : Nat
  objkt_amount : Nat
  xtz_per_objkt : Mutez
  royalties : Nat
  creator : Addr
deriving DecidableEq

/-- Call context: `sp.sender`, `sp.amount` and `sp.self_address`. -/
structure Ctx where
  sender : Addr
  amount : Mutez
  selfAddress : Addr
deriving DecidableEq

/-- Internal operations emitted by an entry point: a tez transfer
(`sp.send`) or a single-entry FA2 `transfer` call (`fa2_transfer`). -/
inductive Operation where
  | sendTez (dest : Addr) (amount : Mutez)
  | fa2Xfer (fa2 : Addr) (from_ : Addr) (to_ : Addr) (token_id : Nat) (token_amount : Nat)
deriving DecidableEq

/-- The contract storage (`Marketplace.__init__`'s `init_type`). -/
structure Storage where
  manager : Addr
  metadata : List (String × String)
  allowed_fa2s : List (Addr × Bool)
  swaps : List (Nat × SwapRecord)
  fee : Nat
  fee_recipient : Addr
  counter : Nat
  proposed_manager : Option Addr
  swaps_paused : Bool
  collects_paused : Bool
deriving DecidableEq

/-- `Marketplace.__init__`: the initial storage.  Note that the
constructor performs no bound check on `fee`. -/
def initStorage (manager : Addr) (metadata : List (String × String))
    (allowed_fa2s : List (Addr × Bool)) (fee : Nat) : Storage :=
  { manager := manager
    metadata := metadata
    allowed_fa2s := allowed_fa2s
    swaps := []
    fee := fee
    fee_recipient := manager
    counter := 0
    proposed_manager := none
    swaps_paused := false
    collects_paused := false }

/-! ## Entry points -/

/-- `sp.split_tokens(amount, quantity, totalQuantity)`: floor division. -/
def split_tokens (amount : Mutez) (quantity total : Nat) : Mutez :=
  amount * quantity / total

/-- `Marketplace.fa2_transfer`: the single-entry FA2 transfer operation. -/
def fa2_transfer (fa2 from_ to_ : Addr) (token_id token_amount : Nat) : Operation :=
  Operation.fa2Xfer fa2 from_ to_ token_id token_amount

/-- `Marketplace.swap`: opens a new swap. -/
def swapEP (ctx : Ctx) (s : Storage) (p : SwapParams) :
    Except String (Storage × List Operation) :=
  if s.swaps_paused then .error "Swaps are paused"
  else if ctx.amount ≠ 0 then .error "The operation does not need tez transfers"
  else if ¬ (bigMapGet s.allowed_fa2s p.fa2).getD false then
    .error "This token type cannot be traded"
  else if ¬ (p.objkt_amount > 0) then .error "At least one edition needs to be swapped"
  else if ¬ (p.royalties ≤ 250) then .error "The royalties cannot be higher than 25%"
  else .ok
    ({ s with
        swaps := bigMapSet s.swaps s.counter
          { issuer := ctx.sender
            fa2 := p.fa2
            objkt_id := p.objkt_id
            objkt_amount := p.objkt_amount
            xtz_per_objkt := p.xtz_per_objkt
            royalties := p.royalties
            creator := p.creator }
        counter := s.counter + 1 },
     [fa2_transfer p.fa2 ctx.sender ctx.selfAddress p.objkt_id p.objkt_amount])

/-- The tez operations emitted by a successful `collect` (source lines
161-178): royalty send when positive, fee send when positive, and the
unconditional issuer send of the remainder; nothing when the price is 0. -/
def collectTezOps (ctx : Ctx) (s : Storage) (sw : SwapRecord) : List Operation :=
  if sw.xtz_per_objkt = 0 then []
  else
    (if 0 < split_tokens sw.xtz_per_objkt sw.royalties 1000 then
      [Operation.sendTez sw.creator (split_tokens sw.xtz_per_objkt sw.royalties 1000)]
     else []) ++
    (if 0 < split_tokens sw.xtz_per_objkt s.fee 1000 then
      [Operation.sendTez s.fee_recipient (split_tokens sw.xtz_per_objkt s.fee 1000)]
     else []) ++
    [Operation.sendTez sw.issuer
      (ctx.amount - split_tokens sw.xtz_per_objkt sw.royalties 1000
        - split_tokens sw.xtz_per_objkt s.fee 1000)]

/-- `Marketplace.collect`: collects one edition of a swapped token.  The
penultimate branch models the runtime failure of Michelson mutez
subtraction in `sp.amount - royalties_amount.value - fee_amount.value`. -/
def collectEP (ctx : Ctx) (s : Storage) (swap_id : Nat) :
    Except String (Storage × List Operation) :=
  if s.collects_paused then .error "Collects are paused"
  else
    match bigMapGet s.swaps swap_id with
    | none => .error "The provided swap_id doesn't exist"
    | some sw =>
      if ctx.sender = sw.issuer then .error "The collector cannot be the swap issuer"
      else if ctx.amount ≠ sw.xtz_per_objkt then
        .error "The sent tez amount does not coincide with the edition price"
      else if ¬ (sw.objkt_amount > 0) then .error "All editions have already been collected"
      else if sw.xtz_per_objkt ≠ 0 ∧
          ctx.amount < split_tokens sw.xtz_per_objkt sw.royalties 1000
            + split_tokens sw.xtz_per_objkt s.fee 1000 then
        .error "mutez subtraction underflow"
      else .ok
        ({ s with
            swaps := bigMapSet s.swaps swap_id
              { sw with objkt_amount := sw.objkt_amount - 1 } },
         collectTezOps ctx s sw
           ++ [fa2_transfer sw.fa2 ctx.selfAddress ctx.sender sw.objkt_id 1])

/-- `Marketplace.cancel_swap`: cancels an existing swap. -/
def cancel_swap (ctx : Ctx) (s : Storage) (swap_id : Nat) :
    Except String (Storage × List Operation) :=
  if ctx.amount ≠ 0 then .error "The operation does not need tez transfers"
  else
    match bigMapGet s.swaps swap_id with
    | none => .error "The provided swap_id doesn't exist"
    | some sw =>
      if ctx.sender ≠ sw.issuer then .error "Only the swap issuer can cancel the swap"
      else if ¬ (sw.objkt_amount > 0) then .error "All editions have been collected"
      else .ok
        ({ s with swaps := bigMapDel s.swaps swap_id },
         [fa2_transfer sw.fa2 ctx.selfAddress ctx.sender sw.objkt_id sw.objkt_amount])

/-- `Marketplace.update_fee`. -/
def update_fee (ctx : Ctx) (s : Storage) (new_fee : Nat) :
    Except String (Storage × List Operation) :=
  if ctx.sender ≠ s.manager then .error "This can only be executed by the manager"
  else if ctx.amount ≠ 0 then .error "The operation does not need tez transfers"
  else if ¬ (new_fee ≤ 250) then .error "The management fee cannot be higher than 25%"
  else .ok ({ s with fee := new_fee }, [])

/-- `Marketplace.update_fee_recipient`. -/
def update_fee_recipient (ctx : Ctx) (s : Storage) (new_fee_recipient : Addr) :
    Except String (Storage × List Operation) :=
  if ctx.sender ≠ s.manager then .error "This can only be executed by the manager"
  else if ctx.amount ≠ 0 then .error "The operation does not need tez transfers"
  else .ok ({ s with fee_recipient := new_fee_recipient }, [])

/-- `Marketplace.transfer_manager`: proposes a new manager. -/
def transfer_manager (ctx : Ctx) (s : Storage) (proposed_manager : Addr) :
    Except String (Storage × List Operation) :=
  if ctx.sender ≠ s.manager then .error "This can only be executed by the manager"
  else if ctx.amount ≠ 0 then .error "The operation does not need tez transfers"
  else .ok ({ s with proposed_manager := some proposed_manager }, [])

/-- `Marketplace.accept_manager`: the proposed manager accepts. -/
def accept_manager (ctx : Ctx) (s : Storage) :
    Except String (Storage × List Operation) :=
  match s.proposed_manager with
  | none => .error "No new manager has been proposed"
  | some pm =>
    if ctx.sender ≠ pm then .error "This can only be executed by the proposed manager"
    else if ctx.amount ≠ 0 then .error "The operation does not need tez transfers"
    else .ok ({ s with manager := ctx.sender, proposed_manager := none }, [])

/-- `Marketplace.update_metadata`. -/
def update_metadata (ctx : Ctx) (s : Storage) (key value : String) :
    Except String (Storage × List Operation) :=
  if ctx.sender ≠ s.manager then .error "This can only be executed by the manager"
  else if ctx.amount ≠ 0 then .error "The operation does not need tez transfers"
  else .ok ({ s with metadata := bigMapSet s.metadata key value }, [])

/-- `Marketplace.add_fa2`: allows an FA2 token address. -/
def add_fa2 (ctx : Ctx) (s : Storage) (fa2 : Addr) :
    Except String (Storage × List Operation) :=
  if ctx.sender ≠ s.manager then .error "This can only be executed by the manager"
  else if ctx.amount ≠ 0 then .error "The operation does not need tez transfers"
  else .ok ({ s with allowed_fa2s := bigMapSet s.allowed_fa2s fa2 true }, [])

/-- `Marketplace.remove_fa2`: disables an FA2 token address by setting
its flag to `False` (the key is never deleted). -/
def remove_fa2 (ctx : Ctx) (s : Storage) (fa2 : Addr) :
    Except String (Storage × List Operation) :=
  if ctx.sender ≠ s.manager then .error "This can only be executed by the manager"
  else if ctx.amount ≠ 0 then .error "The operation does not need tez transfers"
  else .ok ({ s with allowed_fa2s := bigMapSet s.allowed_fa2s fa2 false }, [])

/-- `Marketplace.pause_swaps`. -/
def pause_swaps (ctx : Ctx) (s : Storage) (pause : Bool) :
    Except String (Storage × List Operation) :=
  if ctx.sender ≠ s.manager then .error "This can only be executed by the manager"
  else if ctx.amount ≠ 0 then .error "The operation does not need tez transfers"
  else .ok ({ s with swaps_paused := pause }, [])

/-- `Marketplace.pause_collects`. -/
def pause_collects (ctx : Ctx) (s : Storage) (pause : Bool) :
    Except String (Storage × List Operation) :=
  if ctx.sender ≠ s.manager then .error "This can only be executed by the manager"
  else if ctx.amount ≠ 0 then .error "The operation does not need tez transfers"
  else .ok ({ s with collects_paused := pause }, [])

/-! ## On-chain views -/

/-- `Marketplace.get_manager`. -/
def get_manager (s : Storage) : Addr := s.manager

/-- `Marketplace.is_allowed_fa2`. -/
def is_allowed_fa2 (s : Storage) (fa2 : Addr) : Bool :=
  (bigMapGet s.allowed_fa2s fa2).getD false

/-- `Marketplace.has_swap`. -/
def has_swap (s : Storage) (swap_id : Nat) : Bool :=
  bigMapContains s.swaps swap_id

/-- `Marketplace.get_swap`: fails when the id is absent. -/
def get_swap (s : Storage) (swap_id : Nat) : Except String SwapRecord :=
  match bigMapGet s.swaps swap_id with
  | none => .error "The provided swap_id doesn't exist"
  | some sw => .ok sw

/-- `Marketplace.get_swaps_counter`. -/
def get_swaps_counter (s : Storage) : Nat := s.counter

/-- `Marketplace.get_fee`. -/
def get_fee (s : Storage) : Nat := s.fee

/-- `Marketplace.get_fee_recipient`. -/
def get_fee_recipient (s : Storage) : Addr := s.fee_recipient

/-! ## Calls, traces and reachability -/

def isOk {ε α : Type} : Except ε α → Bool
  | .ok _ => true
  | .error _ => false

def isErr {ε α : Type} : Except ε α → Bool
  | .ok _ => false
  | .error _ => true

/-- One external call to the contract: an entry point together with its
context and arguments. -/
inductive Call where
  | swapA (ctx : Ctx) (p : SwapParams)
  | collectA (ctx : Ctx) (swap_id : Nat)
  | cancelA (ctx : Ctx) (swap_id : Nat)
  | updateFeeA (ctx : Ctx) (new_fee : Nat)
  | updateFeeRecipientA (ctx : Ctx) (a : Addr)
  | transferManagerA (ctx : Ctx) (a : Addr)
  | acceptManagerA (ctx : Ctx)
  | updateMetadataA (ctx : Ctx) (key value : String)
  | addFa2A (ctx : Ctx) (a : Addr)
  | removeFa2A (ctx : Ctx) (a : Addr)
  | pauseSwapsA (ctx : Ctx) (b : Bool)
  | pauseCollectsA (ctx : Ctx) (b : Bool)
deriving DecidableEq

/-- Dispatch an action to its entry point. -/
def exec (s : Storage) : Call → Except String (Storage × List Operation)
  | .swapA ctx p => swapEP ctx s p
  | .collectA ctx swap_id => collectEP ctx s swap_id
  | .cancelA ctx swap_id => cancel_swap ctx s swap_id
  | .updateFeeA ctx new_fee => update_fee ctx s new_fee
  | .updateFeeRecipientA ctx a => update_fee_recipient ctx s a
  | .transferManagerA ctx a => transfer_manager ctx s a
  | .acceptManagerA ctx => accept_manager ctx s
  | .updateMetadataA ctx key value => update_metadata ctx s key value
  | .addFa2A ctx a => add_fa2 ctx s a
  | .removeFa2A ctx a => remove_fa2 ctx s a
  | .pauseSwapsA ctx b => pause_swaps ctx s b
  | .pauseCollectsA ctx b => pause_collects ctx s b

/-- The state after one call: a failed call aborts and leaves the
storage unchanged (host-level atomicity). -/
def applyCall (s : Storage) (a : Call) : Storage :=
  match exec s a with
  | .ok (s', _) => s'
  | .error _ => s

/-- The state after a sequence of calls. -/
def run (s : Storage) : List Call → Storage
  | [] => s
  | a :: rest => run (applyCall s a) rest

/-- The swap ids assigned by the successful `swap` calls of a trace, in
order. -/
def assignedIds (s : Storage) : List Call → List Nat
  | [] => []
  | a :: rest =>
    (match a with
     | .swapA _ _ => if isOk (exec s a) then [s.counter] else []
     | _ => []) ++ assignedIds (applyCall s a) rest

/-- How many calls of a trace are successful `collect`s on `id`. -/
def collectCount (id : Nat) (s : Storage) : List Call → Nat
  | [] => 0
  | a :: rest =>
    (match a with
     | .collectA _ j => if j = id ∧ isOk (exec s a) then 1 else 0
     | _ => 0) + collectCount id (applyCall s a) rest

/-- How many calls of a trace are successful `cancel_swap`s on `id`. -/
def cancelCount (id : Nat) (s : Storage) : List Call → Nat
  | [] => 0
  | a :: rest =>
    (match a with
     | .cancelA _ j => if j = id ∧ isOk (exec s a) then 1 else 0
     | _ => 0) + cancelCount id (applyCall s a) rest

/-- Storage invariant: every key of the swaps big map is below the
counter (so a fresh swap can never overwrite an existing record). -/
def KeysInv (s : Storage) : Prop :=
  ∀ p ∈ s.swaps, p.1 < s.counter

instance (s : Storage) : Decidable (KeysInv s) := by
  unfold KeysInv; infer_instance

theorem KeysInv.lt_counter {s : Storage} (h : KeysInv s) {k : Nat} {sw : SwapRecord}
    (hget : bigMapGet s.swaps k = some sw) : k < s.counter :=
  h (k, sw) (bigMapGet_mem s.swaps k sw hget)

/-! ## Inversion lemmas: what a successful call implies -/

theorem applyCall_of_ok {s : Storage} {a : Call} {s' : Storage} {ops : List Operation}
    (h : exec s a = .ok (s', ops)) : applyCall s a = s' := by
  simp [applyCall, h]

theorem applyCall_of_err {s : Storage} {a : Call} {e : String}
    (h : exec s a = .error e) : applyCall s a = s := by
  simp [applyCall, h]

theorem applyCall_of_isErr {s : Storage} {a : Call}
    (h : isErr (exec s a) = true) : applyCall s a = s := by
  cases he : exec s a with
  | ok r => rw [he] at h; simp [isErr] at h
  | error e => exact applyCall_of_err he

theorem update_fee_ok {ctx : Ctx} {s : Storage} {nf : Nat} {s' : Storage}
    {ops : List Operation} (h : update_fee ctx s nf = .ok (s', ops)) :
    ctx.sender = s.manager ∧ ctx.amount = 0 ∧ nf ≤ 250
      ∧ s' = { s with fee := nf } ∧ ops = [] := by
  unfold update_fee at h
  split_ifs at h with h1 h2 h3
  simp only [Except.ok.injEq, Prod.mk.injEq] at h
  simp_all

theorem update_fee_recipient_ok {ctx : Ctx} {s : Storage} {r : Addr} {s' : Storage}
    {ops : List Operation} (h : update_fee_recipient ctx s r = .ok (s', ops)) :
    ctx.sender = s.manager ∧ ctx.amount = 0
      ∧ s' = { s with fee_recipient := r } ∧ ops = [] := by
  unfold update_fee_recipient at h
  split_ifs at h with h1 h2
  simp only [Except.ok.injEq, Prod.mk.injEq] at h
  simp_all

theorem transfer_manager_ok {ctx : Ctx} {s : Storage} {pm : Addr} {s' : Storage}
    {ops : List Operation} (h : transfer_manager ctx s pm = .ok (s', ops)) :
    ctx.sender = s.manager ∧ ctx.amount = 0
      ∧ s' = { s with proposed_manager := some pm } ∧ ops = [] := by
  unfold transfer_manager at h
  split_ifs at h with h1 h2
  simp only [Except.ok.injEq, Prod.mk.injEq] at h
  simp_all

theorem accept_manager_ok {ctx : Ctx} {s : Storage} {s' : Storage}
    {ops : List Operation} (h : accept_manager ctx s = .ok (s', ops)) :
    s.proposed_manager = some ctx.sender ∧ ctx.amount = 0
      ∧ s' = { s with manager := ctx.sender, proposed_manager := none } ∧ ops = [] := by
  unfold accept_manager at h
  split at h
  · exact Except.noConfusion h
  · rename_i pm hp
    split_ifs at h with h1 h2
    simp only [Except.ok.injEq, Prod.mk.injEq] at h
    simp_all

theorem update_metadata_ok {ctx : Ctx} {s : Storage} {key value : String} {s' : Storage}
    {ops : List Operation} (h : update_metadata ctx s key value = .ok (s', ops)) :
    ctx.sender = s.manager ∧ ctx.amount = 0
      ∧ s' = { s with metadata := bigMapSet s.metadata key value } ∧ ops = [] := by
  unfold update_metadata at h
  split_ifs at h with h1 h2
  simp only [Except.ok.injEq, Prod.mk.injEq] at h
  simp_all

theorem add_fa2_ok {ctx : Ctx} {s : Storage} {fa2 : Addr} {s' : Storage}
    {ops : List Operation} (h : add_fa2 ctx s fa2 = .ok (s', ops)) :
    ctx.sender = s.manager ∧ ctx.amount = 0
      ∧ s' = { s with allowed_fa2s := bigMapSet s.allowed_fa2s fa2 true } ∧ ops = [] := by
  unfold add_fa2 at h
  split_ifs at h with h1 h2
  simp only [Except.ok.injEq, Prod.mk.injEq] at h
  simp_all

theorem remove_fa2_ok {ctx : Ctx} {s : Storage} {fa2 : Addr} {s' : Storage}
    {ops : List Operation} (h : remove_fa2 ctx s fa2 = .ok (s', ops)) :
    ctx.sender = s.manager ∧ ctx.amount = 0
      ∧ s' = { s with allowed_fa2s := bigMapSet s.allowed_fa2s fa2 false } ∧ ops = [] := by
  unfold remove_fa2 at h
  split_ifs at h with h1 h2
  simp only [Except.ok.injEq, Prod.mk.injEq] at h
  simp_all

theorem pause_swaps_ok {ctx : Ctx} {s : Storage} {b : Bool} {s' : Storage}
    {ops : List Operation} (h : pause_swaps ctx s b = .ok (s', ops)) :
    ctx.sender = s.manager ∧ ctx.amount = 0
      ∧ s' = { s with swaps_paused := b } ∧ ops = [] := by
  unfold pause_swaps at h
  split_ifs at h with h1 h2
  simp only [Except.ok.injEq, Prod.mk.injEq] at h
  simp_all

theorem pause_collects_ok {ctx : Ctx} {s : Storage} {b : Bool} {s' : Storage}
    {ops : List Operation} (h : pause_collects ctx s b = .ok (s', ops)) :
    ctx.sender = s.manager ∧ ctx.amount = 0
      ∧ s' = { s with collects_paused := b } ∧ ops = [] := by
  unfold pause_collects at h
  split_ifs at h with h1 h2
  simp only [Except.ok.injEq, Prod.mk.injEq] at h
  simp_all

theorem swapEP_ok {ctx : Ctx} {s : Storage} {p : SwapParams} {s' : Storage}
    {ops : List Operation} (h : swapEP ctx s p = .ok (s', ops)) :
    s.swaps_paused = false ∧ ctx.amount = 0
      ∧ (bigMapGet s.allowed_fa2s p.fa2).getD false = true
      ∧ 0 < p.objkt_amount ∧ p.royalties ≤ 250
      ∧ s' = { s with
          swaps := bigMapSet s.swaps s.counter
            { issuer := ctx.sender
              fa2 := p.fa2
              objkt_id := p.objkt_id
              objkt_amount := p.objkt_amount
              xtz_per_objkt := p.xtz_per_objkt
              royalties := p.royalties
              creator := p.creator }
          counter := s.counter + 1 }
      ∧ ops = [fa2_transfer p.fa2 ctx.sender ctx.selfAddress p.objkt_id p.objkt_amount] := by
  unfold swapEP at h
  split_ifs at h with h1 h2 h3 h4 h5
  simp only [Except.ok.injEq, Prod.mk.injEq] at h
  simp_all

theorem collectEP_ok {ctx : Ctx} {s : Storage} {swap_id : Nat} {s' : Storage}
    {ops : List Operation} (h : collectEP ctx s swap_id = .ok (s', ops)) :
    ∃ sw, bigMapGet s.swaps swap_id = some sw
      ∧ s.collects_paused = false
      ∧ ctx.sender ≠ sw.issuer
      ∧ ctx.amount = sw.xtz_per_objkt
      ∧ 0 < sw.objkt_amount
      ∧ (sw.xtz_per_objkt = 0 ∨
          split_tokens sw.xtz_per_objkt sw.royalties 1000
            + split_tokens sw.xtz_per_objkt s.fee 1000 ≤ ctx.amount)
      ∧ s' = { s with
          swaps := bigMapSet s.swaps swap_id
            { sw with objkt_amount := sw.objkt_amount - 1 } }
      ∧ ops = collectTezOps ctx s sw
          ++ [fa2_transfer sw.fa2 ctx.selfAddress ctx.sender sw.objkt_id 1] := by
  unfold collectEP at h
  split at h
  · exact Except.noConfusion h
  · rename_i hpause
    split at h
    · exact Except.noConfusion h
    · rename_i sw hget
      refine ⟨sw, hget, ?_⟩
      split_ifs at h with h1 h2 h3 h4
      simp only [Except.ok.injEq, Prod.mk.injEq] at h
      push_neg at h4
      constructor
      · simpa using hpause
      refine ⟨h1, by simpa using h2, by omega, ?_, h.1.symm, h.2.symm⟩
      by_cases hz : sw.xtz_per_objkt = 0
      · exact Or.inl hz
      · exact Or.inr (h4 hz)

theorem cancel_swap_ok {ctx : Ctx} {s : Storage} {swap_id : Nat} {s' : Storage}
    {ops : List Operation} (h : cancel_swap ctx s swap_id = .ok (s', ops)) :
    ∃ sw, bigMapGet s.swaps swap_id = some sw
      ∧ ctx.amount = 0 ∧ ctx.sender = sw.issuer ∧ 0 < sw.objkt_amount
      ∧ s' = { s with swaps := bigMapDel s.swaps swap_id }
      ∧ ops = [fa2_transfer sw.fa2 ctx.selfAddress ctx.sender sw.objkt_id
                 sw.objkt_amount] := by
  unfold cancel_swap at h
  split_ifs at h with h1
  split at h
  · exact Except.noConfusion h
  · rename_i sw hget
    refine ⟨sw, hget, ?_⟩
    split_ifs at h with h2 h3
    simp only [Except.ok.injEq, Prod.mk.injEq] at h
    refine ⟨by simpa using h1, by simpa using h2, by omega, h.1.symm, h.2.symm⟩

theorem collectEP_err_of_none {ctx : Ctx} {s : Storage} {swap_id : Nat}
    (h : bigMapGet s.swaps swap_id = none) :
    isErr (collectEP ctx s swap_id) = true := by
  unfold collectEP
  split_ifs with h1
  · simp [isErr]
  · simp [h, isErr]

theorem collectEP_err_of_zero {ctx : Ctx} {s : Storage} {swap_id : Nat} {sw : SwapRecord}
    (hget : bigMapGet s.swaps swap_id = some sw) (hz : sw.objkt_amount = 0) :
    isErr (collectEP ctx s swap_id) = true := by
  unfold collectEP
  split_ifs with h1
  · simp [isErr]
  · simp only [hget]
    split_ifs with h2 h3 <;> simp [isErr, hz] <;> omega

theorem cancel_swap_err_of_none {ctx : Ctx} {s : Storage} {swap_id : Nat}
    (h : bigMapGet s.swaps swap_id = none) :
    isErr (cancel_swap ctx s swap_id) = true := by
  unfold cancel_swap
  split_ifs with h1
  · simp [isErr]
  · simp [h, isErr]

theorem cancel_swap_err_of_zero {ctx : Ctx} {s : Storage} {swap_id : Nat} {sw : SwapRecord}
    (hget : bigMapGet s.swaps swap_id = some sw) (hz : sw.objkt_amount = 0) :
    isErr (cancel_swap ctx s swap_id) = true := by
  unfold cancel_swap
  split_ifs with h1
  · simp [isErr]
  · simp only [hget]
    split_ifs with h2 <;> simp [isErr, hz] <;> omega

/-! ## Step shape: how one successful call changes the swaps map -/

theorem exec_swaps_shape {s : Storage} {a : Call} {s' : Storage} {ops : List Operation}
    (h : exec s a = .ok (s', ops)) :
    (∃ ctx p rec, a = Call.swapA ctx p
       ∧ s'.swaps = bigMapSet s.swaps s.counter rec ∧ s'.counter = s.counter + 1)
    ∨ (∃ ctx j sw, a = Call.collectA ctx j ∧ bigMapGet s.swaps j = some sw
         ∧ 0 < sw.objkt_amount
         ∧ s'.swaps = bigMapSet s.swaps j { sw with objkt_amount := sw.objkt_amount - 1 }
         ∧ s'.counter = s.counter)
    ∨ (∃ ctx j sw, a = Call.cancelA ctx j ∧ bigMapGet s.swaps j = some sw
         ∧ 0 < sw.objkt_amount
         ∧ s'.swaps = bigMapDel s.swaps j ∧ s'.counter = s.counter)
    ∨ (s'.swaps = s.swaps ∧ s'.counter = s.counter) := by
  cases a with
  | swapA ctx p =>
    obtain ⟨_, _, _, _, _, h6, _⟩ := swapEP_ok h
    exact Or.inl ⟨ctx, p, _, rfl, by rw [h6], by rw [h6]⟩
  | collectA ctx j =>
    obtain ⟨sw, hget, _, _, _, hpos, _, h7, _⟩ := collectEP_ok h
    exact Or.inr (Or.inl ⟨ctx, j, sw, rfl, hget, hpos, by rw [h7], by rw [h7]⟩)
  | cancelA ctx j =>
    obtain ⟨sw, hget, _, _, hpos, h6, _⟩ := cancel_swap_ok h
    exact Or.inr (Or.inr (Or.inl ⟨ctx, j, sw, rfl, hget, hpos, by rw [h6], by rw [h6]⟩))
  | updateFeeA ctx nf =>
    obtain ⟨_, _, _, h4, _⟩ := update_fee_ok h
    exact Or.inr (Or.inr (Or.inr ⟨by rw [h4], by rw [h4]⟩))
  | updateFeeRecipientA ctx r =>
    obtain ⟨_, _, h3, _⟩ := update_fee_recipient_ok h
    exact Or.inr (Or.inr (Or.inr ⟨by rw [h3], by rw [h3]⟩))
  | transferManagerA ctx r =>
    obtain ⟨_, _, h3, _⟩ := transfer_manager_ok h
    exact Or.inr (Or.inr (Or.inr ⟨by rw [h3], by rw [h3]⟩))
  | acceptManagerA ctx =>
    obtain ⟨_, _, h3, _⟩ := accept_manager_ok h
    exact Or.inr (Or.inr (Or.inr ⟨by rw [h3], by rw [h3]⟩))
  | updateMetadataA ctx key value =>
    obtain ⟨_, _, h3, _⟩ := update_metadata_ok h
    exact Or.inr (Or.inr (Or.inr ⟨by rw [h3], by rw [h3]⟩))
  | addFa2A ctx r =>
    obtain ⟨_, _, h3, _⟩ := add_fa2_ok h
    exact Or.inr (Or.inr (Or.inr ⟨by rw [h3], by rw [h3]⟩))
  | removeFa2A ctx r =>
    obtain ⟨_, _, h3, _⟩ := remove_fa2_ok h
    exact Or.inr (Or.inr (Or.inr ⟨by rw [h3], by rw [h3]⟩))
  | pauseSwapsA ctx b =>
    obtain ⟨_, _, h3, _⟩ := pause_swaps_ok h
    exact Or.inr (Or.inr (Or.inr ⟨by rw [h3], by rw [h3]⟩))
  | pauseCollectsA ctx b =>
    obtain ⟨_, _, h3, _⟩ := pause_collects_ok h
    exact Or.inr (Or.inr (Or.inr ⟨by rw [h3], by rw [h3]⟩))

theorem keysInv_applyCall (s : Storage) (a : Call) (hinv : KeysInv s) :
    KeysInv (applyCall s a) := by
  cases h : exec s a with
  | error e => rw [applyCall_of_err h]; exact hinv
  | ok r =>
    obtain ⟨s', ops⟩ := r
    rw [applyCall_of_ok h]
    rcases exec_swaps_shape h with ⟨ctx, p, rec, _, hs, hc⟩ |
      ⟨ctx, j, sw, _, hget, _, hs, hc⟩ | ⟨ctx, j, sw, _, hget, _, hs, hc⟩ | ⟨hs, hc⟩
    · intro q hq
      rw [hs] at hq; rw [hc]
      rcases mem_bigMapSet _ _ _ _ hq with hm | hm
      · exact Nat.lt_succ_of_lt (hinv q hm)
      · rw [hm]; exact Nat.lt_succ_self _
    · intro q hq
      rw [hs] at hq; rw [hc]
      rcases mem_bigMapSet _ _ _ _ hq with hm | hm
      · exact hinv q hm
      · rw [hm]; exact hinv.lt_counter hget
    · intro q hq
      rw [hs] at hq; rw [hc]
      exact hinv q (mem_bigMapDel _ _ _ hq)
    · intro q hq
      rw [hs] at hq; rw [hc]
      exact hinv q hq

theorem keysInv_run (s : Storage) (acts : List Call) (hinv : KeysInv s) :
    KeysInv (run s acts) := by
  induction acts generalizing s with
  | nil => exact hinv
  | cons a rest ih => exact ih (applyCall s a) (keysInv_applyCall s a hinv)

/-- A call that is neither a successful `collect` on `id` nor a
successful `cancel_swap` on `id` leaves the record at `id` untouched. -/
theorem applyCall_get_preserve {s : Storage} {a : Call} {id : Nat} {sw : SwapRecord}
    (hinv : KeysInv s) (hget : bigMapGet s.swaps id = some sw)
    (hnc : ∀ ctx, a = Call.collectA ctx id → isOk (exec s a) = false)
    (hnx : ∀ ctx, a = Call.cancelA ctx id → isOk (exec s a) = false) :
    bigMapGet (applyCall s a).swaps id = some sw := by
  cases h : exec s a with
  | error e => rw [applyCall_of_err h]; exact hget
  | ok r =>
    obtain ⟨s', ops⟩ := r
    rw [applyCall_of_ok h]
    rcases exec_swaps_shape h with ⟨ctx, p, rec, ha, hs, _⟩ |
      ⟨ctx, j, swj, ha, hgj, _, hs, _⟩ | ⟨ctx, j, swj, ha, hgj, _, hs, _⟩ | ⟨hs, _⟩
    · rw [hs]
      have hid : id < s.counter := hinv.lt_counter hget
      rw [bigMapGet_set_ne _ _ _ _ (by omega)]
      exact hget
    · rw [hs]
      have hj : id ≠ j := by
        intro hji
        subst hji
        have hf := hnc ctx ha
        rw [h] at hf
        simp [isOk] at hf
      rw [bigMapGet_set_ne _ _ _ _ hj]
      exact hget
    · rw [hs]
      have hj : id ≠ j := by
        intro hji
        subst hji
        have hf := hnx ctx ha
        rw [h] at hf
        simp [isOk] at hf
      rw [bigMapGet_del_ne _ _ _ hj]
      exact hget
    · rw [hs]; exact hget

/-! ## Monotone counters and the assigned-id sequence -/

theorem applyCall_counter_nonswap {s : Storage} {a : Call}
    (hns : ∀ ctx p, a ≠ Call.swapA ctx p) :
    (applyCall s a).counter = s.counter := by
  cases he : exec s a with
  | error e => rw [applyCall_of_err he]
  | ok r =>
    obtain ⟨s', ops⟩ := r
    rw [applyCall_of_ok he]
    rcases exec_swaps_shape he with ⟨ctx, p, rec, ha, _, _⟩ |
      ⟨_, _, _, _, _, _, _, hc⟩ | ⟨_, _, _, _, _, _, _, hc⟩ | ⟨_, hc⟩
    · exact absurd ha (hns ctx p)
    · exact hc
    · exact hc
    · exact hc

theorem assignedIds_cons_nonswap (s : Storage) (a : Call) (rest : List Call)
    (hns : ∀ ctx p, a ≠ Call.swapA ctx p) :
    assignedIds s (a :: rest) = assignedIds (applyCall s a) rest := by
  cases a
  case swapA ctx p => exact absurd rfl (hns ctx p)
  all_goals simp [assignedIds]

theorem collectCount_cons_other (id : Nat) (s : Storage) (a : Call) (rest : List Call)
    (hns : ∀ ctx, a ≠ Call.collectA ctx id) :
    collectCount id s (a :: rest) = collectCount id (applyCall s a) rest := by
  cases a
  case collectA ctx j =>
    have hj : ¬ (j = id) := by
      intro hji
      subst hji
      exact absurd rfl (hns ctx)
    simp [collectCount, hj]
  all_goals simp [collectCount]

theorem cancelCount_cons_other (id : Nat) (s : Storage) (a : Call) (rest : List Call)
    (hns : ∀ ctx, a ≠ Call.cancelA ctx id) :
    cancelCount id s (a :: rest) = cancelCount id (applyCall s a) rest := by
  cases a
  case cancelA ctx j =>
    have hj : ¬ (j = id) := by
      intro hji
      subst hji
      exact absurd rfl (hns ctx)
    simp [cancelCount, hj]
  all_goals simp [cancelCount]

theorem assignedIds_range' (acts : List Call) : ∀ s : Storage,
    s.counter ≤ (run s acts).counter ∧
    assignedIds s acts = List.range' s.counter ((run s acts).counter - s.counter) := by
  induction acts with
  | nil =>
    intro s
    simp [run, assignedIds]
  | cons a rest ih =>
    intro s
    have hrun : run s (a :: rest) = run (applyCall s a) rest := rfl
    by_cases hsw : ∃ ctx p, a = Call.swapA ctx p
    · obtain ⟨ctx, p, rfl⟩ := hsw
      cases he : exec s (Call.swapA ctx p) with
      | error e =>
        have happ : applyCall s (Call.swapA ctx p) = s := applyCall_of_err he
        have h1 := ih s
        rw [hrun, happ]
        refine ⟨h1.1, ?_⟩
        simp only [assignedIds, he, isOk, happ]
        simpa using h1.2
      | ok r =>
        obtain ⟨s', ops⟩ := r
        have happ : applyCall s (Call.swapA ctx p) = s' := applyCall_of_ok he
        have hc : s'.counter = s.counter + 1 := by
          obtain ⟨_, _, _, _, _, h6, _⟩ := swapEP_ok he
          rw [h6]
        obtain ⟨hle, hids⟩ := ih s'
        rw [hrun, happ]
        refine ⟨by omega, ?_⟩
        simp only [assignedIds, he, isOk, happ]
        rw [hids]
        have hk : (run s' rest).counter - s.counter
            = ((run s' rest).counter - s'.counter) + 1 := by omega
        rw [hk, List.range'_succ]
        simp [hc]
    · push_neg at hsw
      have hns : ∀ ctx p, a ≠ Call.swapA ctx p := hsw
      have hcnt : (applyCall s a).counter = s.counter := applyCall_counter_nonswap hns
      obtain ⟨hle, hids⟩ := ih (applyCall s a)
      rw [hrun, assignedIds_cons_nonswap s a rest hns]
      rw [hcnt] at hle hids
      exact ⟨hle, hids⟩

theorem isOk_eq_false_of_isErr {ε α : Type} {e : Except ε α}
    (h : isErr e = true) : isOk e = false := by
  cases e <;> simp [isOk, isErr] at h ⊢

/-- Core edition-accounting lemma: as long as a swap is never cancelled,
its record stays in the map and its `objkt_amount` drops by exactly the
number of successful collects on it, which never exceeds the amount the
record started with. -/
theorem run_get_collects (acts : List Call) : ∀ (s : Storage) (id : Nat) (sw : SwapRecord),
    KeysInv s → bigMapGet s.swaps id = some sw → cancelCount id s acts = 0 →
    collectCount id s acts ≤ sw.objkt_amount ∧
    bigMapGet (run s acts).swaps id =
      some { sw with objkt_amount := sw.objkt_amount - collectCount id s acts } := by
  induction acts with
  | nil =>
    intro s id sw _ hget _
    refine ⟨by simp [collectCount], ?_⟩
    simpa [run, collectCount] using hget
  | cons a rest ih =>
    intro s id sw hinv hget hcancel
    have hinv' := keysInv_applyCall s a hinv
    have hrun : run s (a :: rest) = run (applyCall s a) rest := rfl
    by_cases hcol : ∃ ctx, a = Call.collectA ctx id ∧ isOk (exec s a) = true
    · obtain ⟨ctx, rfl, hok⟩ := hcol
      cases he : exec s (Call.collectA ctx id) with
      | error e => rw [he] at hok; simp [isOk] at hok
      | ok r =>
        obtain ⟨s', ops⟩ := r
        have happ : applyCall s (Call.collectA ctx id) = s' := applyCall_of_ok he
        obtain ⟨sw2, hget2, _, _, _, hpos, _, hs', _⟩ := collectEP_ok he
        rw [hget] at hget2
        obtain rfl : sw = sw2 := Option.some.inj hget2
        have hget' : bigMapGet s'.swaps id
            = some { sw with objkt_amount := sw.objkt_amount - 1 } := by
          rw [hs']
          exact bigMapGet_set_self _ _ _
        have hcc : collectCount id s (Call.collectA ctx id :: rest)
            = 1 + collectCount id s' rest := by
          simp [collectCount, he, isOk, happ]
        have hxc : cancelCount id s (Call.collectA ctx id :: rest)
            = cancelCount id s' rest := by
          simp [cancelCount, happ]
        rw [hxc] at hcancel
        have hinv2 : KeysInv s' := by rw [← happ]; exact hinv'
        obtain ⟨hle, hmap⟩ := ih s' id _ hinv2 hget' hcancel
        rw [hcc, hrun, happ]
        constructor
        · simp only [SwapRecord.objkt_amount] at hle ⊢
          omega
        · rw [hmap]
          have harith : sw.objkt_amount - 1 - collectCount id s' rest
              = sw.objkt_amount - (1 + collectCount id s' rest) := by omega
          simp [harith]
    · have hnc : ∀ ctx, a = Call.collectA ctx id → isOk (exec s a) = false := by
        intro ctx ha
        by_contra hok
        simp only [Bool.not_eq_false] at hok
        exact hcol ⟨ctx, ha, hok⟩
      have hnx : ∀ ctx, a = Call.cancelA ctx id → isOk (exec s a) = false := by
        intro ctx ha
        by_contra hok
        simp only [Bool.not_eq_false] at hok
        subst ha
        simp [cancelCount, hok] at hcancel
      have hget' := applyCall_get_preserve hinv hget hnc hnx
      have hcc : collectCount id s (a :: rest) = collectCount id (applyCall s a) rest := by
        cases a
        case collectA ctx j =>
          by_cases hj : j = id
          · subst hj
            have hf := hnc ctx rfl
            simp [collectCount, hf]
          · simp [collectCount, hj]
        all_goals simp [collectCount]
      have hxc : cancelCount id s (a :: rest) = cancelCount id (applyCall s a) rest := by
        cases a
        case cancelA ctx j =>
          by_cases hj : j = id
          · subst hj
            have hf := hnx ctx rfl
            simp [cancelCount, hf]
          · simp [cancelCount, hj]
        all_goals simp [cancelCount]
      rw [hxc] at hcancel
      rw [hcc, hrun]
      exact ih (applyCall s a) id sw hinv' hget' hcancel

/-- An exhausted record (zero remaining editions) is frozen: every later
state still holds the identical record. -/
theorem run_get_exhausted (acts : List Call) : ∀ (s : Storage) (id : Nat) (sw : SwapRecord),
    KeysInv s → bigMapGet s.swaps id = some sw → sw.objkt_amount = 0 →
    bigMapGet (run s acts).swaps id = some sw := by
  induction acts with
  | nil =>
    intro s id sw _ hget _
    simpa [run] using hget
  | cons a rest ih =>
    intro s id sw hinv hget hz
    have hinv' := keysInv_applyCall s a hinv
    have hnc : ∀ ctx, a = Call.collectA ctx id → isOk (exec s a) = false := by
      intro ctx ha
      subst ha
      exact isOk_eq_false_of_isErr (collectEP_err_of_zero hget hz)
    have hnx : ∀ ctx, a = Call.cancelA ctx id → isOk (exec s a) = false := by
      intro ctx ha
      subst ha
      exact isOk_eq_false_of_isErr (cancel_swap_err_of_zero hget hz)
    have hget' := applyCall_get_preserve hinv hget hnc hnx
    exact ih (applyCall s a) id sw hinv' hget' hz

/-! ## Payment-splitting arithmetic -/

theorem splits_le_half (P r f : Nat) (hr : r ≤ 250) (hf : f ≤ 250) :
    split_tokens P r 1000 + split_tokens P f 1000 ≤ P / 2 := by
  unfold split_tokens
  have h1 : (P * r / 1000 + P * f / 1000) * 1000 ≤ P * r + P * f := by
    calc (P * r / 1000 + P * f / 1000) * 1000
        = P * r / 1000 * 1000 + P * f / 1000 * 1000 := by ring
      _ ≤ P * r + P * f := Nat.add_le_add (Nat.div_mul_le_self _ _) (Nat.div_mul_le_self _ _)
  have h2 : P * r / 1000 + P * f / 1000 ≤ (P * r + P * f) / 1000 :=
    (Nat.le_div_iff_mul_le (by norm_num)).mpr h1
  have h3 : (P * r + P * f) / 1000 ≤ P * 500 / 1000 := by
    apply Nat.div_le_div_right
    have hx : P * r + P * f = P * (r + f) := by ring
    rw [hx]
    exact Nat.mul_le_mul_left P (by omega)
  have h4 : P * 500 / 1000 = P / 2 := by
    have hx : P * 500 = 500 * P := by ring
    have hy : (1000 : Nat) = 500 * 2 := by norm_num
    rw [hx, hy]
    exact Nat.mul_div_mul_left P 2 (by norm_num)
  calc P * r / 1000 + P * f / 1000 ≤ (P * r + P * f) / 1000 := h2
    _ ≤ P * 500 / 1000 := h3
    _ = P / 2 := h4

theorem splits_add_issuer (P r f : Nat) (hr : r ≤ 250) (hf : f ≤ 250) :
    split_tokens P r 1000 + split_tokens P f 1000
      + (P - split_tokens P r 1000 - split_tokens P f 1000) = P := by
  have h := splits_le_half P r f hr hf
  have h2 : P / 2 ≤ P := Nat.div_le_self P 2
  rw [Nat.sub_sub]
  exact Nat.add_sub_cancel' (le_trans h h2)

theorem issuer_share_pos (P r f : Nat) (hP : 0 < P) (hr : r ≤ 250) (hf : f ≤ 250) :
    0 < P - split_tokens P r 1000 - split_tokens P f 1000 := by
  have h := splits_le_half P r f hr hf
  have h2 : P / 2 < P := Nat.div_lt_self hP (by norm_num)
  rw [Nat.sub_sub]
  exact Nat.sub_pos_of_lt (lt_of_le_of_lt h h2)

/-! ## Fee-field accounting -/

theorem exec_fee_shape {s : Storage} {a : Call} {s' : Storage} {ops : List Operation}
    (h : exec s a = .ok (s', ops)) : s'.fee = s.fee ∨ s'.fee ≤ 250 := by
  cases a with
  | updateFeeA ctx nf =>
    obtain ⟨_, _, h3, h4, _⟩ := update_fee_ok h
    right
    rw [h4]
    exact h3
  | swapA ctx p =>
    obtain ⟨_, _, _, _, _, h6, _⟩ := swapEP_ok h
    left; rw [h6]
  | collectA ctx j =>
    obtain ⟨sw, _, _, _, _, _, _, h7, _⟩ := collectEP_ok h
    left; rw [h7]
  | cancelA ctx j =>
    obtain ⟨sw, _, _, _, _, h6, _⟩ := cancel_swap_ok h
    left; rw [h6]
  | updateFeeRecipientA ctx r =>
    obtain ⟨_, _, h3, _⟩ := update_fee_recipient_ok h
    left; rw [h3]
  | transferManagerA ctx r =>
    obtain ⟨_, _, h3, _⟩ := transfer_manager_ok h
    left; rw [h3]
  | acceptManagerA ctx =>
    obtain ⟨_, _, h3, _⟩ := accept_manager_ok h
    left; rw [h3]
  | updateMetadataA ctx key value =>
    obtain ⟨_, _, h3, _⟩ := update_metadata_ok h
    left; rw [h3]
  | addFa2A ctx r =>
    obtain ⟨_, _, h3, _⟩ := add_fa2_ok h
    left; rw [h3]
  | removeFa2A ctx r =>
    obtain ⟨_, _, h3, _⟩ := remove_fa2_ok h
    left; rw [h3]
  | pauseSwapsA ctx b =>
    obtain ⟨_, _, h3, _⟩ := pause_swaps_ok h
    left; rw [h3]
  | pauseCollectsA ctx b =>
    obtain ⟨_, _, h3, _⟩ := pause_collects_ok h
    left; rw [h3]

theorem exec_fee_eq {s : Storage} {a : Call} {s' : Storage} {ops : List Operation}
    (h : exec s a = .ok (s', ops)) (hns : ∀ ctx nf, a ≠ Call.updateFeeA ctx nf) :
    s'.fee = s.fee := by
  cases a with
  | updateFeeA ctx nf => exact absurd rfl (hns ctx nf)
  | swapA ctx p =>
    obtain ⟨_, _, _, _, _, h6, _⟩ := swapEP_ok h
    rw [h6]
  | collectA ctx j =>
    obtain ⟨sw, _, _, _, _, _, _, h7, _⟩ := collectEP_ok h
    rw [h7]
  | cancelA ctx j =>
    obtain ⟨sw, _, _, _, _, h6, _⟩ := cancel_swap_ok h
    rw [h6]
  | updateFeeRecipientA ctx r =>
    obtain ⟨_, _, h3, _⟩ := update_fee_recipient_ok h
    rw [h3]
  | transferManagerA ctx r =>
    obtain ⟨_, _, h3, _⟩ := transfer_manager_ok h
    rw [h3]
  | acceptManagerA ctx =>
    obtain ⟨_, _, h3, _⟩ := accept_manager_ok h
    rw [h3]
  | updateMetadataA ctx key value =>
    obtain ⟨_, _, h3, _⟩ := update_metadata_ok h
    rw [h3]
  | addFa2A ctx r =>
    obtain ⟨_, _, h3, _⟩ := add_fa2_ok h
    rw [h3]
  | removeFa2A ctx r =>
    obtain ⟨_, _, h3, _⟩ := remove_fa2_ok h
    rw [h3]
  | pauseSwapsA ctx b =>
    obtain ⟨_, _, h3, _⟩ := pause_swaps_ok h
    rw [h3]
  | pauseCollectsA ctx b =>
    obtain ⟨_, _, h3, _⟩ := pause_collects_ok h
    rw [h3]

theorem applyCall_fee_le {s : Storage} {a : Call} (h : s.fee ≤ 250) :
    (applyCall s a).fee ≤ 250 := by
  cases he : exec s a with
  | error e => rw [applyCall_of_err he]; exact h
  | ok r =>
    obtain ⟨s', ops⟩ := r
    rw [applyCall_of_ok he]
    rcases exec_fee_shape he with h1 | h1
    · rw [h1]; exact h
    · exact h1

theorem run_fee_le (acts : List Call) : ∀ s : Storage,
    s.fee ≤ 250 → (run s acts).fee ≤ 250 := by
  induction acts with
  | nil => intro s h; exact h
  | cons a rest ih => intro s h; exact ih (applyCall s a) (applyCall_fee_le h)

theorem applyCall_counter_mono (s : Storage) (a : Call) :
    s.counter ≤ (applyCall s a).counter := by
  cases he : exec s a with
  | error e => rw [applyCall_of_err he]
  | ok r =>
    obtain ⟨s', ops⟩ := r
    rw [applyCall_of_ok he]
    rcases exec_swaps_shape he with ⟨_, _, _, _, _, hc⟩ |
      ⟨_, _, _, _, _, _, _, hc⟩ | ⟨_, _, _, _, _, _, _, hc⟩ | ⟨_, hc⟩ <;> omega

/-! ## Claims -/

/-- C1: for every successful collect on a swap with price `P`, royalty
rate `r` and current fee rate `f`, the royalty amount is `⌊P*r/1000⌋`,
the fee amount is `⌊P*f/1000⌋`, the issuer amount is
`P - royaltyAmount - feeAmount`, the three sum to exactly `P`, and
(whenever `P ≠ 0`) the issuer send of that amount is among the emitted
operations. -/
theorem collect_split_conservation (ctx : Ctx) (s : Storage) (swap_id : Nat)
    (s' : Storage) (ops : List Operation) (sw : SwapRecord)
    (hget : bigMapGet s.swaps swap_id = some sw)
    (h : collectEP ctx s swap_id = .ok (s', ops)) :
    split_tokens sw.xtz_per_objkt sw.royalties 1000
        = sw.xtz_per_objkt * sw.royalties / 1000
    ∧ split_tokens sw.xtz_per_objkt s.fee 1000 = sw.xtz_per_objkt * s.fee / 1000
    ∧ split_tokens sw.xtz_per_objkt sw.royalties 1000
        + split_tokens sw.xtz_per_objkt s.fee 1000
        + (sw.xtz_per_objkt - split_tokens sw.xtz_per_objkt sw.royalties 1000
            - split_tokens sw.xtz_per_objkt s.fee 1000)
        = sw.xtz_per_objkt
    ∧ (sw.xtz_per_objkt ≠ 0 →
        Operation.sendTez sw.issuer
          (sw.xtz_per_objkt - split_tokens sw.xtz_per_objkt sw.royalties 1000
            - split_tokens sw.xtz_per_objkt s.fee 1000) ∈ ops) := by
  obtain ⟨sw2, hget2, _, _, hamt, _, hub, _, hops⟩ := collectEP_ok h
  rw [hget] at hget2
  obtain rfl : sw = sw2 := Option.some.inj hget2
  refine ⟨rfl, rfl, ?_, ?_⟩
  · rcases hub with hz | hle
    · simp [split_tokens, hz]
    · rw [hamt] at hle
      rw [Nat.sub_sub]
      exact Nat.add_sub_cancel' hle
  · intro hz
    rw [hops]
    apply List.mem_append_left
    unfold collectTezOps
    rw [if_neg hz, hamt]
    simp

/-- C10: for every price `P > 0` and rates `r ≤ 250`, `f ≤ 250`, the
issuer share `P - ⌊P*r/1000⌋ - ⌊P*f/1000⌋` is strictly positive, so a
collect whose other preconditions hold succeeds (the mutez subtraction
never underflows) and emits a nonzero unconditional issuer payment. -/
theorem collect_issuer_share_positive (ctx : Ctx) (s : Storage) (swap_id : Nat)
    (sw : SwapRecord)
    (hpause : s.collects_paused = false)
    (hget : bigMapGet s.swaps swap_id = some sw)
    (hsender : ctx.sender ≠ sw.issuer)
    (hamt : ctx.amount = sw.xtz_per_objkt)
    (hpos : 0 < sw.objkt_amount)
    (hr : sw.royalties ≤ 250) (hf : s.fee ≤ 250)
    (hP : 0 < sw.xtz_per_objkt) :
    0 < sw.xtz_per_objkt - split_tokens sw.xtz_per_objkt sw.royalties 1000
        - split_tokens sw.xtz_per_objkt s.fee 1000
    ∧ ∃ s' ops, collectEP ctx s swap_id = .ok (s', ops)
        ∧ Operation.sendTez sw.issuer
            (sw.xtz_per_objkt - split_tokens sw.xtz_per_objkt sw.royalties 1000
              - split_tokens sw.xtz_per_objkt s.fee 1000) ∈ ops := by
  have hshare := issuer_share_pos sw.xtz_per_objkt sw.royalties s.fee hP hr hf
  have hub : ¬ (sw.xtz_per_objkt ≠ 0 ∧
      ctx.amount < split_tokens sw.xtz_per_objkt sw.royalties 1000
        + split_tokens sw.xtz_per_objkt s.fee 1000) := by
    rintro ⟨-, hlt⟩
    rw [hamt] at hlt
    have hle := splits_le_half sw.xtz_per_objkt sw.royalties s.fee hr hf
    exact absurd hlt (not_lt.mpr (le_trans hle (Nat.div_le_self _ 2)))
  have hok : collectEP ctx s swap_id = .ok
      ({ s with
          swaps := bigMapSet s.swaps swap_id
            { sw with objkt_amount := sw.objkt_amount - 1 } },
       collectTezOps ctx s sw
         ++ [fa2_transfer sw.fa2 ctx.selfAddress ctx.sender sw.objkt_id 1]) := by
    unfold collectEP
    simp only [hget]
    rw [if_neg (by simp [hpause]), if_neg hsender, if_neg (by simp [hamt]),
      if_neg (by simp [hpos]), if_neg hub]
  refine ⟨hshare, _, _, hok, ?_⟩
  apply List.mem_append_left
  unfold collectTezOps
  rw [if_neg (Nat.pos_iff_ne_zero.mp hP), hamt]
  simp

/-- C4: a collect succeeds only when all five preconditions hold
(collects not paused, the swap id exists, the caller is not the issuer,
the payment equals the price exactly, and remaining editions are
positive); any failing call aborts with the storage unchanged. -/
theorem collect_preconditions (ctx : Ctx) (s : Storage) (swap_id : Nat) :
    (isOk (collectEP ctx s swap_id) = true →
       s.collects_paused = false
       ∧ has_swap s swap_id = true
       ∧ ∃ sw, bigMapGet s.swaps swap_id = some sw
           ∧ ctx.sender ≠ sw.issuer
           ∧ ctx.amount = sw.xtz_per_objkt
           ∧ 0 < sw.objkt_amount)
    ∧ (isOk (collectEP ctx s swap_id) = false →
         isErr (collectEP ctx s swap_id) = true
         ∧ applyCall s (Call.collectA ctx swap_id) = s) := by
  constructor
  · intro hok
    cases he : collectEP ctx s swap_id with
    | error e => rw [he] at hok; simp [isOk] at hok
    | ok r =>
      obtain ⟨s', ops⟩ := r
      obtain ⟨sw, hget, hpause, hsender, hamt, hpos, _⟩ := collectEP_ok he
      exact ⟨hpause, by simp [has_swap, bigMapContains, hget],
        sw, hget, hsender, hamt, hpos⟩
  · intro hko
    cases he : collectEP ctx s swap_id with
    | ok r => rw [he] at hko; simp [isOk] at hko
    | error e =>
      refine ⟨by simp [isErr], ?_⟩
      have hexec : exec s (Call.collectA ctx swap_id) = .error e := he
      exact applyCall_of_err hexec

/-- C6: a cancel by the swap issuer with zero attached tez on an
existing swap with remaining editions succeeds, emits the custody
transfer of all remaining editions back to the caller (the issuer), and
deletes the record, after which `has_swap` is false and `get_swap`
fails. -/
theorem cancel_swap_removes (ctx : Ctx) (s : Storage) (swap_id : Nat) (sw : SwapRecord)
    (hamt : ctx.amount = 0)
    (hget : bigMapGet s.swaps swap_id = some sw)
    (hissuer : ctx.sender = sw.issuer)
    (hpos : 0 < sw.objkt_amount) :
    cancel_swap ctx s swap_id = .ok
      ({ s with swaps := bigMapDel s.swaps swap_id },
       [fa2_transfer sw.fa2 ctx.selfAddress ctx.sender sw.objkt_id sw.objkt_amount])
    ∧ has_swap { s with swaps := bigMapDel s.swaps swap_id } swap_id = false
    ∧ get_swap { s with swaps := bigMapDel s.swaps swap_id } swap_id
        = .error "The provided swap_id doesn't exist" := by
  refine ⟨?_, ?_, ?_⟩
  · unfold cancel_swap
    simp only [hget]
    rw [if_neg (by simp [hamt]), if_neg (by simp [hissuer]), if_neg (by simp [hpos])]
  · simp [has_swap, bigMapContains, bigMapGet_del_self]
  · simp [get_swap, bigMapGet_del_self]

/-- C8: removing a token contract from the allowlist is a soft removal:
after a successful `remove_fa2` the key is present with value `false`,
`is_allowed_fa2` answers `false`, and any subsequent `swap` call
referencing that token contract fails. -/
theorem remove_fa2_soft_removal (ctx : Ctx) (s : Storage) (fa2 : Addr)
    (s' : Storage) (ops : List Operation)
    (h : remove_fa2 ctx s fa2 = .ok (s', ops)) :
    bigMapGet s'.allowed_fa2s fa2 = some false
    ∧ is_allowed_fa2 s' fa2 = false
    ∧ (∀ (ctx' : Ctx) (p : SwapParams), p.fa2 = fa2 →
        isErr (swapEP ctx' s' p) = true) := by
  obtain ⟨_, _, hs, _⟩ := remove_fa2_ok h
  subst hs
  refine ⟨bigMapGet_set_self _ _ _, ?_, ?_⟩
  · simp [is_allowed_fa2, bigMapGet_set_self]
  · intro ctx' p hp
    unfold swapEP
    split_ifs with h1 h2 h3 h4 h5 <;> simp [isErr]
    simp [hp, bigMapGet_set_self] at h3

/-- C2: starting from the initial storage, the ids assigned by the
successful `swap` calls of any trace are exactly `0, 1, 2, …` (the range
of the final counter) with no duplicates; the counter never decreases
under any call and increases by exactly 1 per successful `swap`. -/
theorem swap_ids_sequential (m : Addr) (md : List (String × String))
    (al : List (Addr × Bool)) (fee : Nat) (acts : List Call) :
    assignedIds (initStorage m md al fee) acts
      = List.range ((run (initStorage m md al fee) acts).counter)
    ∧ (assignedIds (initStorage m md al fee) acts).Nodup
    ∧ (∀ (s : Storage) (a : Call), s.counter ≤ (applyCall s a).counter)
    ∧ (∀ (ctx : Ctx) (s : Storage) (p : SwapParams) (s' : Storage)
         (ops : List Operation),
         swapEP ctx s p = .ok (s', ops) → s'.counter = s.counter + 1) := by
  obtain ⟨hle, hids⟩ := assignedIds_range' acts (initStorage m md al fee)
  have hc0 : (initStorage m md al fee).counter = 0 := rfl
  refine ⟨?_, ?_, applyCall_counter_mono, ?_⟩
  · rw [hids, hc0, Nat.sub_zero, List.range_eq_range']
  · rw [hids]
    exact List.nodup_range' ..
  · intro ctx s p s' ops h
    obtain ⟨_, _, _, _, _, h6, _⟩ := swapEP_ok h
    rw [h6]

/-- C3: for a swap holding `N = sw.objkt_amount` editions, a trace with
no successful cancel of it leaves the record present with exactly
`N - n` editions where `n` is the number of successful collects on it
(and `n ≤ N`, so the count never goes negative); a collect attempt when
the remaining amount is 0 always fails. -/
theorem remaining_editions_accounting (s : Storage) (acts : List Call) (id : Nat)
    (sw : SwapRecord) (hinv : KeysInv s)
    (hget : bigMapGet s.swaps id = some sw)
    (hnocancel : cancelCount id s acts = 0) :
    (collectCount id s acts ≤ sw.objkt_amount
     ∧ bigMapGet (run s acts).swaps id
         = some { sw with objkt_amount := sw.objkt_amount - collectCount id s acts })
    ∧ (∀ ctx : Ctx, sw.objkt_amount = 0 → isErr (collectEP ctx s id) = true) := by
  refine ⟨run_get_collects acts s id sw hinv hget hnocancel, ?_⟩
  intro ctx hz
  exact collectEP_err_of_zero hget hz

/-- C5: a swap whose remaining editions reached 0 is frozen: every
reachable later state still holds the identical record (it is never
removed nor mutated), and both `collect` and `cancel_swap` on its id
fail there. -/
theorem exhausted_swap_frozen (s : Storage) (acts : List Call) (id : Nat)
    (sw : SwapRecord) (hinv : KeysInv s)
    (hget : bigMapGet s.swaps id = some sw)
    (hz : sw.objkt_amount = 0) :
    bigMapGet (run s acts).swaps id = some sw
    ∧ (∀ ctx : Ctx, isErr (collectEP ctx (run s acts) id) = true
        ∧ isErr (cancel_swap ctx (run s acts) id) = true) := by
  have hget' := run_get_exhausted acts s id sw hinv hget hz
  exact ⟨hget', fun ctx =>
    ⟨collectEP_err_of_zero hget' hz, cancel_swap_err_of_zero hget' hz⟩⟩

/-- C9: if the fee is at most 250, it stays at most 250 in every
reachable state; `update_fee` rejects any value above 250; the
constructor stores any initial fee unchecked; and no call other than
`update_fee` ever writes the fee field. -/
theorem fee_bound_invariant (s : Storage) (acts : List Call) :
    (s.fee ≤ 250 → (run s acts).fee ≤ 250)
    ∧ (∀ (ctx : Ctx) (nf : Nat), 250 < nf → isErr (update_fee ctx s nf) = true)
    ∧ (∀ (m : Addr) (md : List (String × String)) (al : List (Addr × Bool)) (f : Nat),
         (initStorage m md al f).fee = f)
    ∧ (∀ a : Call, (∀ ctx nf, a ≠ Call.updateFeeA ctx nf) →
         (applyCall s a).fee = s.fee) := by
  refine ⟨run_fee_le acts s, ?_, fun m md al f => rfl, ?_⟩
  · intro ctx nf hnf
    unfold update_fee
    split_ifs with h1 h2 h3 <;> simp [isErr]
    omega
  · intro a hns
    cases he : exec s a with
    | error e => rw [applyCall_of_err he]
    | ok r =>
      obtain ⟨s', ops⟩ := r
      rw [applyCall_of_ok he]
      exact exec_fee_eq he hns

/-- C7 counterexample: storage with a pending proposal for address 2,
and address 2 itself (the pending administrator) calling
`accept_manager` with 1 mutez attached.  The claim's condition for
success holds — a proposal is pending and the caller equals the pending
administrator — yet the call fails (the entry point also demands zero
attached tez), refuting the claimed `succeeds exactly when`
equivalence. -/
theorem admin_handover_cex :
    Storage.proposed_manager
        { manager := 1, metadata := [], allowed_fa2s := [], swaps := [],
          fee := 25, fee_recipient := 1, counter := 0,
          proposed_manager := some 2, swaps_paused := false,
          collects_paused := false } = some 2
    ∧ Ctx.sender { sender := 2, amount := 1, selfAddress := 9 } = 2
    ∧ isOk (accept_manager { sender := 2, amount := 1, selfAddress := 9 }
        { manager := 1, metadata := [], allowed_fa2s := [], swaps := [],
          fee := 25, fee_recipient := 1, counter := 0,
          proposed_manager := some 2, swaps_paused := false,
          collects_paused := false }) = false := by
  decide

/-- C7 (amended with the zero-attached-payment precondition the code
also enforces): `transfer_manager`, called by the current manager with
zero attached tez, sets the pending proposal to the candidate,
overwriting any prior one; with zero attached tez, `accept_manager`
succeeds exactly when the caller is the pending administrator, in which
case the manager becomes the caller and the proposal is cleared; and
with a proposal pending, any other caller fails with the authorization
error. -/
theorem admin_handover (ctx : Ctx) (s : Storage) (cand : Addr) :
    (ctx.sender = s.manager → ctx.amount = 0 →
       transfer_manager ctx s cand
         = .ok ({ s with proposed_manager := some cand }, []))
    ∧ (ctx.amount = 0 →
        (isOk (accept_manager ctx s) = true ↔ s.proposed_manager = some ctx.sender))
    ∧ (s.proposed_manager = some ctx.sender → ctx.amount = 0 →
        accept_manager ctx s
          = .ok ({ s with manager := ctx.sender, proposed_manager := none }, []))
    ∧ (∀ pm : Addr, s.proposed_manager = some pm → ctx.sender ≠ pm →
        accept_manager ctx s
          = .error "This can only be executed by the proposed manager") := by
  have haccept : s.proposed_manager = some ctx.sender → ctx.amount = 0 →
      accept_manager ctx s
        = .ok ({ s with manager := ctx.sender, proposed_manager := none }, []) := by
    intro hp hamt
    unfold accept_manager
    simp only [hp]
    rw [if_neg (by simp), if_neg (by simp [hamt])]
  refine ⟨?_, ?_, haccept, ?_⟩
  · intro hmgr hamt
    unfold transfer_manager
    rw [if_neg (by simp [hmgr]), if_neg (by simp [hamt])]
  · intro hamt
    constructor
    · intro hok
      cases he : accept_manager ctx s with
      | error e => rw [he] at hok; simp [isOk] at hok
      | ok r =>
        obtain ⟨s', ops⟩ := r
        obtain ⟨hp, _, _⟩ := accept_manager_ok he
        exact hp
    · intro hp
      rw [haccept hp hamt]
      simp [isOk]
  · intro pm hp hne
    unfold accept_manager
    simp only [hp]
    rw [if_pos hne]

instance {ε α : Type} [DecidableEq ε] [DecidableEq α] : DecidableEq (Except ε α) :=
  fun a b =>
    match a, b with
    | .ok x, .ok y =>
      if h : x = y then .isTrue (by rw [h]) else .isFalse (by simp [h])
    | .error x, .error y =>
      if h : x = y then .isTrue (by rw [h]) else .isFalse (by simp [h])
    | .ok _, .error _ => .isFalse (by simp)
    | .error _, .ok _ => .isFalse (by simp)

/-! ## Concrete sample data for the witnesses -/

def sampleSwap : SwapRecord :=
  { issuer := 2, fa2 := 5, objkt_id := 7, objkt_amount := 3,
    xtz_per_objkt := 1000, royalties := 100, creator := 4 }

def sampleStorage : Storage :=
  { manager := 1, metadata := [], allowed_fa2s := [(5, true)],
    swaps := [(0, sampleSwap)], fee := 25, fee_recipient := 1,
    counter := 1, proposed_manager := none, swaps_paused := false,
    collects_paused := false }

def sampleCtx : Ctx := { sender := 3, amount := 1000, selfAddress := 9 }

def sampleSwapZero : SwapRecord := { sampleSwap with objkt_amount := 0 }

def sampleStorageZero : Storage :=
  { sampleStorage with swaps := [(0, sampleSwapZero)] }

def collectOutStorage : Storage :=
  { sampleStorage with swaps := [(0, { sampleSwap with objkt_amount := 2 })] }

def collectOutOps : List Operation :=
  [Operation.sendTez 4 100, Operation.sendTez 1 25, Operation.sendTez 2 875,
   Operation.fa2Xfer 5 9 3 7 1]

theorem collect_split_conservation_witness :
    (bigMapGet sampleStorage.swaps 0 = some sampleSwap
     ∧ collectEP sampleCtx sampleStorage 0 = .ok (collectOutStorage, collectOutOps))
    ∧ (split_tokens sampleSwap.xtz_per_objkt sampleSwap.royalties 1000
          = sampleSwap.xtz_per_objkt * sampleSwap.royalties / 1000
       ∧ split_tokens sampleSwap.xtz_per_objkt sampleStorage.fee 1000
          = sampleSwap.xtz_per_objkt * sampleStorage.fee / 1000
       ∧ split_tokens sampleSwap.xtz_per_objkt sampleSwap.royalties 1000
           + split_tokens sampleSwap.xtz_per_objkt sampleStorage.fee 1000
           + (sampleSwap.xtz_per_objkt
               - split_tokens sampleSwap.xtz_per_objkt sampleSwap.royalties 1000
               - split_tokens sampleSwap.xtz_per_objkt sampleStorage.fee 1000)
           = sampleSwap.xtz_per_objkt
       ∧ (sampleSwap.xtz_per_objkt ≠ 0 →
           Operation.sendTez sampleSwap.issuer
             (sampleSwap.xtz_per_objkt
               - split_tokens sampleSwap.xtz_per_objkt sampleSwap.royalties 1000
               - split_tokens sampleSwap.xtz_per_objkt sampleStorage.fee 1000)
             ∈ collectOutOps)) :=
  ⟨⟨by decide, by decide⟩,
   collect_split_conservation sampleCtx sampleStorage 0 collectOutStorage
     collectOutOps sampleSwap (by decide) (by decide)⟩

theorem collect_issuer_share_positive_witness :
    (sampleStorage.collects_paused = false
     ∧ bigMapGet sampleStorage.swaps 0 = some sampleSwap
     ∧ sampleCtx.sender ≠ sampleSwap.issuer
     ∧ sampleCtx.amount = sampleSwap.xtz_per_objkt
     ∧ 0 < sampleSwap.objkt_amount
     ∧ sampleSwap.royalties ≤ 250 ∧ sampleStorage.fee ≤ 250
     ∧ 0 < sampleSwap.xtz_per_objkt)
    ∧ (0 < sampleSwap.xtz_per_objkt
          - split_tokens sampleSwap.xtz_per_objkt sampleSwap.royalties 1000
          - split_tokens sampleSwap.xtz_per_objkt sampleStorage.fee 1000
       ∧ ∃ s' ops, collectEP sampleCtx sampleStorage 0 = .ok (s', ops)
           ∧ Operation.sendTez sampleSwap.issuer
               (sampleSwap.xtz_per_objkt
                 - split_tokens sampleSwap.xtz_per_objkt sampleSwap.royalties 1000
                 - split_tokens sampleSwap.xtz_per_objkt sampleStorage.fee 1000)
               ∈ ops) :=
  ⟨⟨by decide, by decide, by decide, by decide, by decide, by decide, by decide,
    by decide⟩,
   collect_issuer_share_positive sampleCtx sampleStorage 0 sampleSwap (by decide)
     (by decide) (by decide) (by decide) (by decide) (by decide) (by decide)
     (by decide)⟩

theorem collect_preconditions_witness :
    (sampleStorage.collects_paused = false
     ∧ has_swap sampleStorage 0 = true
     ∧ ∃ sw, bigMapGet sampleStorage.swaps 0 = some sw
         ∧ sampleCtx.sender ≠ sw.issuer
         ∧ sampleCtx.amount = sw.xtz_per_objkt
         ∧ 0 < sw.objkt_amount)
    ∧ (isErr (collectEP { sender := 3, amount := 1, selfAddress := 9 }
          sampleStorage 0) = true
       ∧ applyCall sampleStorage
           (Call.collectA { sender := 3, amount := 1, selfAddress := 9 } 0)
           = sampleStorage) :=
  ⟨(collect_preconditions sampleCtx sampleStorage 0).1 (by decide),
   (collect_preconditions { sender := 3, amount := 1, selfAddress := 9 }
      sampleStorage 0).2 (by decide)⟩

def cancelCtx : Ctx := { sender := 2, amount := 0, selfAddress := 9 }

theorem cancel_swap_removes_witness :
    (cancelCtx.amount = 0
     ∧ bigMapGet sampleStorage.swaps 0 = some sampleSwap
     ∧ cancelCtx.sender = sampleSwap.issuer
     ∧ 0 < sampleSwap.objkt_amount)
    ∧ (cancel_swap cancelCtx sampleStorage 0 = .ok
         ({ sampleStorage with swaps := bigMapDel sampleStorage.swaps 0 },
          [fa2_transfer sampleSwap.fa2 cancelCtx.selfAddress cancelCtx.sender
             sampleSwap.objkt_id sampleSwap.objkt_amount])
       ∧ has_swap { sampleStorage with swaps := bigMapDel sampleStorage.swaps 0 } 0
           = false
       ∧ get_swap { sampleStorage with swaps := bigMapDel sampleStorage.swaps 0 } 0
           = .error "The provided swap_id doesn't exist") :=
  ⟨⟨by decide, by decide, by decide, by decide⟩,
   cancel_swap_removes cancelCtx sampleStorage 0 sampleSwap (by decide) (by decide)
     (by decide) (by decide)⟩

def managerCtx : Ctx := { sender := 1, amount := 0, selfAddress := 9 }

def removeOutStorage : Storage :=
  { sampleStorage with allowed_fa2s := [(5, false)] }

theorem remove_fa2_soft_removal_witness :
    remove_fa2 managerCtx sampleStorage 5 = .ok (removeOutStorage, [])
    ∧ (bigMapGet removeOutStorage.allowed_fa2s 5 = some false
       ∧ is_allowed_fa2 removeOutStorage 5 = false
       ∧ (∀ (ctx' : Ctx) (p : SwapParams), p.fa2 = 5 →
           isErr (swapEP ctx' removeOutStorage p) = true)) :=
  ⟨by decide,
   remove_fa2_soft_removal managerCtx sampleStorage 5 removeOutStorage []
     (by decide)⟩

def openCtx : Ctx := { sender := 2, amount := 0, selfAddress := 9 }

def openParams : SwapParams :=
  { fa2 := 5, objkt_id := 7, objkt_amount := 3, xtz_per_objkt := 1000,
    royalties := 100, creator := 4 }

def openActs : List Call := [Call.swapA openCtx openParams]

def openOutStorage : Storage :=
  { initStorage 1 [] [(5, true)] 25 with
      swaps := [(0, sampleSwap)], counter := 1 }

theorem swap_ids_sequential_witness :
    (assignedIds (initStorage 1 [] [(5, true)] 25) openActs
       = List.range ((run (initStorage 1 [] [(5, true)] 25) openActs).counter))
    ∧ (swapEP openCtx (initStorage 1 [] [(5, true)] 25) openParams
         = .ok (openOutStorage, [fa2_transfer 5 2 9 7 3])
       ∧ openOutStorage.counter = (initStorage 1 [] [(5, true)] 25).counter + 1) :=
  ⟨(swap_ids_sequential 1 [] [(5, true)] 25 openActs).1,
   by decide,
   (swap_ids_sequential 1 [] [(5, true)] 25 openActs).2.2.2 openCtx
     (initStorage 1 [] [(5, true)] 25) openParams openOutStorage
     [fa2_transfer 5 2 9 7 3] (by decide)⟩

def collectActs : List Call := [Call.collectA sampleCtx 0]

theorem remaining_editions_accounting_witness :
    (KeysInv sampleStorage
     ∧ bigMapGet sampleStorage.swaps 0 = some sampleSwap
     ∧ cancelCount 0 sampleStorage collectActs = 0)
    ∧ (collectCount 0 sampleStorage collectActs ≤ sampleSwap.objkt_amount
       ∧ bigMapGet (run sampleStorage collectActs).swaps 0
           = some { sampleSwap with
               objkt_amount :=
                 sampleSwap.objkt_amount - collectCount 0 sampleStorage collectActs })
    ∧ isErr (collectEP sampleCtx sampleStorageZero 0) = true :=
  ⟨⟨by decide, by decide, by decide⟩,
   (remaining_editions_accounting sampleStorage collectActs 0 sampleSwap (by decide)
      (by decide) (by decide)).1,
   (remaining_editions_accounting sampleStorageZero collectActs 0 sampleSwapZero
      (by decide) (by decide) (by decide)).2 sampleCtx (by decide)⟩

theorem exhausted_swap_frozen_witness :
    (KeysInv sampleStorageZero
     ∧ bigMapGet sampleStorageZero.swaps 0 = some sampleSwapZero
     ∧ sampleSwapZero.objkt_amount = 0)
    ∧ (bigMapGet (run sampleStorageZero collectActs).swaps 0 = some sampleSwapZero
       ∧ isErr (collectEP sampleCtx (run sampleStorageZero collectActs) 0) = true
       ∧ isErr (cancel_swap sampleCtx (run sampleStorageZero collectActs) 0) = true) :=
  ⟨⟨by decide, by decide, by decide⟩,
   (exhausted_swap_frozen sampleStorageZero collectActs 0 sampleSwapZero (by decide)
      (by decide) (by decide)).1,
   (exhausted_swap_frozen sampleStorageZero collectActs 0 sampleSwapZero (by decide)
      (by decide) (by decide)).2 sampleCtx⟩

theorem fee_bound_invariant_witness :
    ((run sampleStorage collectActs).fee ≤ 250
     ∧ isErr (update_fee managerCtx sampleStorage 300) = true
     ∧ (initStorage 1 [] [] 999).fee = 999
     ∧ (applyCall sampleStorage (Call.pauseSwapsA managerCtx true)).fee
         = sampleStorage.fee) :=
  ⟨(fee_bound_invariant sampleStorage collectActs).1 (by decide),
   (fee_bound_invariant sampleStorage collectActs).2.1 managerCtx 300 (by decide),
   (fee_bound_invariant sampleStorage collectActs).2.2.1 1 [] [] 999,
   (fee_bound_invariant sampleStorage collectActs).2.2.2
     (Call.pauseSwapsA managerCtx true)
     (fun ctx nf h => Call.noConfusion h)⟩

def pendingStorage : Storage := { sampleStorage with proposed_manager := some 2 }

def acceptOutStorage : Storage :=
  { pendingStorage with manager := 2, proposed_manager := none }

def acceptCtx : Ctx := { sender := 2, amount := 0, selfAddress := 9 }

def otherCtx : Ctx := { sender := 3, amount := 0, selfAddress := 9 }

theorem admin_handover_witness :
    (transfer_manager managerCtx sampleStorage 2
       = .ok ({ sampleStorage with proposed_manager := some 2 }, [])
     ∧ isOk (accept_manager acceptCtx pendingStorage) = true
     ∧ accept_manager acceptCtx pendingStorage = .ok (acceptOutStorage, [])
     ∧ accept_manager otherCtx pendingStorage
         = .error "This can only be executed by the proposed manager") :=
  ⟨(admin_handover managerCtx sampleStorage 2).1 (by decide) (by decide),
   ((admin_handover acceptCtx pendingStorage 2).2.1 (by decide)).mpr (by decide),
   (admin_handover acceptCtx pendingStorage 2).2.2.1 (by decide) (by decide),
   (admin_handover otherCtx pendingStorage 2).2.2.2 2 (by decide) (by decide)⟩
